import Mathlib

/-!
# Verification of the Deribit options parsing pipeline

Shallow embedding of `src/data/scripts/3_parse_options.py`.

Conventions of the embedding:
* Strings from the Python code are modelled as `List Char` (the decoder works
  character by character, mirroring `str.split`, `int(...)` and
  `datetime.strptime`); file names are `List Char` ordered by the
  code-point lexicographic order, matching Python's `sorted` on paths.
* Numeric columns (`price`, `quantity`, `iv`) are modelled as `Int`;
  the claims under study never depend on float rounding.  `timestamp`
  (microseconds since epoch) and the trade `id` are modelled as `Nat`.
* pandas timestamps rendered with `.isoformat()` are modelled by the raw
  microsecond value: the rendering is injective and monotone, so min/max
  statements transfer verbatim.
* A daily file that `pd.read_feather` fails to load is modelled by a
  `SourceFile` whose `content` is `none`; the `try/except` in the scan loop
  becomes a skip of such files.
-/

/-! ## Character and digit helpers -/

/-- ASCII decimal digit test, the character class accepted by `int(...)`
and by the `%d`/`%y` directives of `strptime`. -/
def isAsciiDigit (c : Char) : Bool :=
  decide ('0' ≤ c) && decide (c ≤ '9')

/-- Numeric value of an ASCII digit character. -/
def digitVal (c : Char) : Nat := c.toNat - 48

/-- The ASCII digit character of a value below ten. -/
def digitChar (d : Nat) : Char := Char.ofNat (48 + d)

/-- Value of a big-endian ASCII digit string, the arithmetic `int(...)`
performs on an all-digit string. -/
def digitsVal (cs : List Char) : Nat :=
  cs.foldl (fun a c => a * 10 + digitVal c) 0

/-- Decimal rendering of a natural number (used to build well-formed
identifiers for the round-trip property). -/
def natToDigits (n : Nat) : List Char :=
  if _h : n < 10 then [digitChar n]
  else natToDigits (n / 10) ++ [digitChar (n % 10)]
decreasing_by exact Nat.div_lt_self (by omega) (by omega)

/-! ## Python `str.split` with a one-character separator -/

/-- `splitOnChar sep cs` models Python's `cs.split(sep)` for a
single-character separator: `""` splits to `[""]`, separators at the ends
produce empty fields. -/
def splitOnChar (sep : Char) : List Char → List (List Char)
  | [] => [[]]
  | c :: cs =>
    if c = sep then [] :: splitOnChar sep cs
    else
      match splitOnChar sep cs with
      | [] => [[c]]
      | r :: rs => (c :: r) :: rs

/-! ## Python `int(...)` on a string -/

/-- Models `int(parts[2])` in `parse_instrument_name`: an optional sign
followed by a nonempty run of decimal digits parses to an integer, anything
else raises `ValueError` (here: `none`).  (Exotic accepted forms —
surrounding whitespace, digit-group underscores — are not modelled; no
claim exercises them.) -/
def pyInt (cs : List Char) : Option Int :=
  match cs with
  | [] => none
  | '-' :: rest =>
    if rest ≠ [] ∧ rest.all isAsciiDigit then some (-(digitsVal rest : Int)) else none
  | '+' :: rest =>
    if rest ≠ [] ∧ rest.all isAsciiDigit then some ((digitsVal rest : Int)) else none
  | _ =>
    if cs.all isAsciiDigit then some ((digitsVal cs : Int)) else none

/-! ## `datetime.strptime(expiry_str, "%d%b%y")`

CPython compiles the format to the regular expression
`(3[01]|[12]\d|0[1-9]|[1-9])(jan|feb|...|dec)(\d\d)` matched
case-insensitively against the whole string, then builds
`datetime(year, month, day)`, which validates the day against the month
length.  `%y` maps `00..68` to `2000..2068` and `69..99` to `1969..1999`.
The regex alternation backtracks: a failed two-digit-day parse falls back
to a one-digit day. -/

/-- Month number of an upper-cased three-letter abbreviation (C locale). -/
def monthNum (s : List Char) : Option Nat :=
  if s = ['J', 'A', 'N'] then some 1
  else if s = ['F', 'E', 'B'] then some 2
  else if s = ['M', 'A', 'R'] then some 3
  else if s = ['A', 'P', 'R'] then some 4
  else if s = ['M', 'A', 'Y'] then some 5
  else if s = ['J', 'U', 'N'] then some 6
  else if s = ['J', 'U', 'L'] then some 7
  else if s = ['A', 'U', 'G'] then some 8
  else if s = ['S', 'E', 'P'] then some 9
  else if s = ['O', 'C', 'T'] then some 10
  else if s = ['N', 'O', 'V'] then some 11
  else if s = ['D', 'E', 'C'] then some 12
  else none

/-- Gregorian leap-year rule, as validated by `datetime`. -/
def isLeap (y : Nat) : Bool :=
  y % 4 = 0 && (y % 100 ≠ 0 || y % 400 = 0)

/-- Number of days of a month, as validated by `datetime`. -/
def daysInMonth (y m : Nat) : Nat :=
  if m = 2 then (if isLeap y then 29 else 28)
  else if m = 4 ∨ m = 6 ∨ m = 9 ∨ m = 11 then 30
  else 31

/-- After the day digits: exactly three month letters (case-insensitive)
and exactly two year digits, then end of string; the day is validated
against the month length.  Returns `(year, month, day)`. -/
def parseMonthYear (day : Nat) (rest : List Char) : Option (Nat × Nat × Nat) :=
  match rest with
  | [m1, m2, m3, y1, y2] =>
    match monthNum [m1.toUpper, m2.toUpper, m3.toUpper] with
    | none => none
    | some m =>
      if isAsciiDigit y1 && isAsciiDigit y2 then
        let yy := digitVal y1 * 10 + digitVal y2
        let year := if yy ≤ 68 then 2000 + yy else 1900 + yy
        if 1 ≤ day ∧ day ≤ daysInMonth year m then some (year, m, day) else none
      else none
  | _ => none

/-- The two-digit-day alternatives of the `%d` regex
(`3[01]|[12]\d|0[1-9]`): two digit characters with value `1..31`. -/
def parseDayTwo (cs : List Char) : Option (Nat × Nat × Nat) :=
  match cs with
  | d1 :: d2 :: rest =>
    if isAsciiDigit d1 && isAsciiDigit d2 then
      let dd := digitVal d1 * 10 + digitVal d2
      if 1 ≤ dd ∧ dd ≤ 31 then parseMonthYear dd rest else none
    else none
  | _ => none

/-- The one-digit-day alternative of the `%d` regex (`[1-9]`). -/
def parseDayOne (cs : List Char) : Option (Nat × Nat × Nat) :=
  match cs with
  | d1 :: rest =>
    if isAsciiDigit d1 && decide (1 ≤ digitVal d1) then
      parseMonthYear (digitVal d1) rest
    else none
  | _ => none

/-- The whole `%d%b%y` parse: try the two-digit-day alternatives of the
regex first and, on failure of the remainder, fall back to the one-digit
day, exactly as the backtracking regex does. -/
def parseDMY (cs : List Char) : Option (Nat × Nat × Nat) :=
  match parseDayTwo cs with
  | some r => some r
  | none => parseDayOne cs

/-- `date.isoformat()`: zero-padded `YYYY-MM-DD`. -/
def twoDigits (n : Nat) : List Char := [digitChar (n / 10 % 10), digitChar (n % 10)]

/-- Four zero-padded digits of the year for `date.isoformat()`. -/
def fourDigits (n : Nat) : List Char :=
  [digitChar (n / 1000 % 10), digitChar (n / 100 % 10), digitChar (n / 10 % 10),
    digitChar (n % 10)]

/-- `date.isoformat()` of `(year, month, day)`. -/
def isoDate (y m d : Nat) : List Char :=
  fourDigits y ++ '-' :: (twoDigits m ++ '-' :: twoDigits d)

/-! ## `parse_instrument_name` -/

/-- The `'CALL' if parts[3] == 'C' else 'PUT'` value. -/
inductive OptionType where
  | CALL
  | PUT
deriving DecidableEq, Repr

/-- The dict returned by `parse_instrument_name` on success. -/
structure ParsedInstrument where
  asset : List Char
  expiry_date : List Char
  strike_price : Int
  option_type : OptionType
deriving DecidableEq, Repr

/-- `parse_instrument_name` of `3_parse_options.py` (lines 17-43): split on
`'-'`, require exactly four fields, `int(...)` the strike,
`strptime(..., "%d%b%y")` the expiry; any failure (caught by the bare
`except`) yields `none`.  Note the fourth field: the code maps `"C"` to
`CALL` and every other string to `PUT`. -/
def parse_instrument_name (instrument : List Char) : Option ParsedInstrument :=
  match splitOnChar '-' instrument with
  | [asset, expiry_str, strike_str, ot] =>
    match pyInt strike_str with
    | none => none
    | some strike =>
      match parseDMY expiry_str with
      | none => none
      | some (y, m, d) =>
        some { asset := asset
               expiry_date := isoDate y m d
               strike_price := strike
               option_type := if ot = ['C'] then OptionType.CALL else OptionType.PUT }
  | _ => none

/-! ## Data model of the pipeline -/

/-- One row of a daily feather file: the columns used by the script. -/
structure Trade where
  instrument : List Char
  id : Nat
  timestamp : Nat
  price : Int
  quantity : Int
  iv : Int
deriving DecidableEq, Repr

/-- One daily file: its path name (lexicographically ordered, as
`sorted(input_dir.glob(...))` orders paths) and its rows; `content = none`
models a file `pd.read_feather` raises on, handled by the
`except ... continue` of the scan loop. -/
structure SourceFile where
  name : List Char
  content : Option (List Trade)
deriving DecidableEq, Repr

/-- Rows a file delivers (`[]` for an unreadable file, which the loop
skips before touching them). -/
def rowsOf (f : SourceFile) : List Trade := f.content.getD []

/-! ## The Aggregator (`process_all_files`, lines 118-149) -/

/-- The scan-loop state: `instruments_data` and `files_per_instrument`
(both `defaultdict`, modelled as total functions with the dict defaults),
plus the `total_trades` and `processed_files` counters. -/
structure AggState where
  instruments_data : List Char → List (List Trade)
  files_per_instrument : List Char → Nat
  total_trades : Nat
  processed_files : Nat

/-- State at the top of the scan loop. -/
def initAggState : AggState :=
  { instruments_data := fun _ => []
    files_per_instrument := fun _ => 0
    total_trades := 0
    processed_files := 0 }

/-- One iteration of the scan loop (lines 126-149): an unreadable file is
skipped by the `except` clause, an empty frame by `if df.empty: continue`;
otherwise, for each distinct `instrument` value of the frame (grouping by
the raw identifier string), the rows of that instrument are appended as one
batch and that instrument's file counter is incremented once. -/
def stepFile (st : AggState) (f : SourceFile) : AggState :=
  match f.content with
  | none => st
  | some [] => st
  | some rows =>
      { instruments_data := fun s =>
          if rows.any (fun r => decide (r.instrument = s)) then
            st.instruments_data s ++ [rows.filter (fun r => decide (r.instrument = s))]
          else st.instruments_data s
        files_per_instrument := fun s =>
          if rows.any (fun r => decide (r.instrument = s)) then
            st.files_per_instrument s + 1
          else st.files_per_instrument s
        total_trades := st.total_trades + rows.length
        processed_files := st.processed_files + 1 }

/-- The whole scan pass over an already-ordered file sequence. -/
def aggregate (files : List SourceFile) : AggState :=
  files.foldl stepFile initAggState

/-- Code-point lexicographic strict order on path names, the order Python
string comparison (and hence `sorted` on paths) uses. -/
def nameLt : List Char → List Char → Bool
  | _, [] => false
  | [], _ :: _ => true
  | a :: as, b :: bs => if a < b then true else if b < a then false else nameLt as bs

theorem nameLt_irrefl (x : List Char) : nameLt x x = false := by
  induction x with
  | nil => rfl
  | cons a as ih => simp [nameLt, ih]

theorem nameLt_asymm : ∀ x y, nameLt x y = true → nameLt y x = false
  | [], [] => by simp [nameLt]
  | [], _ :: _ => by simp [nameLt]
  | _ :: _, [] => by simp [nameLt]
  | a :: as, b :: bs => by
    simp only [nameLt]
    rcases lt_trichotomy a b with hab | hab | hab
    · intro _
      rw [if_neg (not_lt_of_gt hab), if_pos hab]
    · subst hab
      simp only [lt_irrefl, if_false]
      exact nameLt_asymm as bs
    · rw [if_neg (not_lt_of_gt hab), if_pos hab]
      intro h
      exact absurd h Bool.false_ne_true

theorem nameLt_conn : ∀ x y, nameLt x y = false → nameLt y x = false → x = y
  | [], [] => fun _ _ => rfl
  | [], _ :: _ => by simp [nameLt]
  | _ :: _, [] => by simp [nameLt]
  | a :: as, b :: bs => by
    simp only [nameLt]
    intro h1 h2
    rcases lt_trichotomy a b with hab | hab | hab
    · rw [if_pos hab] at h1
      exact Bool.noConfusion h1
    · subst hab
      simp only [lt_irrefl, if_false] at h1 h2
      rw [nameLt_conn as bs h1 h2]
    · rw [if_pos hab] at h2
      exact Bool.noConfusion h2

theorem nameLt_trans : ∀ x y z, nameLt x y = true → nameLt y z = true →
    nameLt x z = true
  | x, y, [] => by simp [nameLt]
  | [], y, c :: cs => by simp [nameLt]
  | a :: as, [], c :: cs => by simp [nameLt]
  | a :: as, b :: bs, c :: cs => by
    simp only [nameLt]
    intro hxy hyz
    rcases lt_trichotomy a b with hab | hab | hab
    · rcases lt_trichotomy b c with hbc | hbc | hbc
      · rw [if_pos (lt_trans hab hbc)]
      · subst hbc
        rw [if_pos hab]
      · rw [if_neg (not_lt_of_gt hbc), if_pos hbc] at hyz
        exact absurd hyz Bool.false_ne_true
    · subst hab
      rcases lt_trichotomy a c with hac | hac | hac
      · rw [if_pos hac]
      · subst hac
        simp only [lt_irrefl, if_false] at hxy hyz ⊢
        exact nameLt_trans as bs cs hxy hyz
      · rw [if_neg (not_lt_of_gt hac), if_pos hac] at hyz
        exact absurd hyz Bool.false_ne_true
    · rw [if_neg (not_lt_of_gt hab), if_pos hab] at hxy
      exact absurd hxy Bool.false_ne_true

/-- Scan ordering of `process_all_files` line 109:
`files = sorted(list(input_dir.glob('*.feather')))`. -/
def fileLe (f g : SourceFile) : Prop := nameLt g.name f.name = false

instance : DecidableRel fileLe := fun f g =>
  inferInstanceAs (Decidable (nameLt g.name f.name = false))

instance : IsTotal SourceFile fileLe := by
  refine ⟨fun f g => ?_⟩
  rcases h : nameLt g.name f.name with _ | _
  · exact Or.inl h
  · exact Or.inr (nameLt_asymm _ _ h)

instance : IsTrans SourceFile fileLe := by
  refine ⟨fun f g h hfg hgh => ?_⟩
  simp only [fileLe] at hfg hgh ⊢
  rcases hx : nameLt h.name f.name with _ | _
  · rfl
  · exfalso
    rcases hy : nameLt f.name g.name with _ | _
    · have hfg2 := nameLt_conn _ _ hy hfg
      rw [hfg2] at hx
      rw [hx] at hgh
      exact Bool.noConfusion hgh
    · have hhg := nameLt_trans _ _ _ hx hy
      rw [hhg] at hgh
      exact Bool.noConfusion hgh

/-- `sorted(...)` over the globbed files, by lexicographic path name. -/
def sortFiles (files : List SourceFile) : List SourceFile :=
  List.insertionSort fileLe files

/-! ## The Instrument Writer (`save_option_data`, `generate_metadata`) -/

/-- `drop_duplicates(subset=['id'], keep='first')` (line 167): keep the
first row of each trade identifier, in the order of the combined frame. -/
def dedupById (seen : List Nat) : List Trade → List Trade
  | [] => []
  | r :: rs =>
    if r.id ∈ seen then dedupById seen rs
    else r :: dedupById (r.id :: seen) rs

/-- `sort_values('timestamp')` (line 88) sorts by this relation.  (pandas
uses an unstable quicksort; the model uses a stable sort — no claim under
study depends on the order of equal timestamps.) -/
def tsLe (a b : Trade) : Prop := a.timestamp ≤ b.timestamp

instance : DecidableRel tsLe := fun a b =>
  inferInstanceAs (Decidable (a.timestamp ≤ b.timestamp))

instance : IsTotal Trade tsLe := ⟨fun a b => Nat.le_total a.timestamp b.timestamp⟩

instance : IsTrans Trade tsLe := ⟨fun _ _ _ h h2 => Nat.le_trans h h2⟩

/-- `trades_df.sort_values('timestamp')`. -/
def sortByTimestamp (rows : List Trade) : List Trade :=
  List.insertionSort tsLe rows

/-- `trades_df['timestamp'].min()` seen through `datetime`; pandas returns
`NaT` on an empty frame, which never occurs here (every saved instrument
has at least one row), so the empty case carries a junk value. -/
def tsMin (rows : List Trade) : Nat :=
  match rows with
  | [] => 0
  | r :: rs => rs.foldl (fun acc x => min acc x.timestamp) r.timestamp

/-- `trades_df['timestamp'].max()`, same conventions as `tsMin`. -/
def tsMax (rows : List Trade) : Nat :=
  match rows with
  | [] => 0
  | r :: rs => rs.foldl (fun acc x => max acc x.timestamp) r.timestamp

/-- Column minimum for the `price`/`iv` ranges (`Int`-valued columns). -/
def colMin (col : Trade → Int) (rows : List Trade) : Int :=
  match rows with
  | [] => 0
  | r :: rs => rs.foldl (fun acc x => min acc (col x)) (col r)

/-- Column maximum, same conventions as `colMin`. -/
def colMax (col : Trade → Int) (rows : List Trade) : Int :=
  match rows with
  | [] => 0
  | r :: rs => rs.foldl (fun acc x => max acc (col x)) (col r)

/-- The `metadata.json` record built by `generate_metadata` (lines 57-76).
`first_trade`/`last_trade` hold the microsecond value whose ISO rendering
the script stores. -/
structure Metadata where
  instrument : List Char
  asset : List Char
  expiry_date : List Char
  strike_price : Int
  option_type : OptionType
  total_trades : Nat
  total_volume : Int
  first_trade : Nat
  last_trade : Nat
  price_min : Int
  price_max : Int
  iv_min : Int
  iv_max : Int
  data_files_processed : Nat
deriving DecidableEq, Repr

/-- `generate_metadata` (lines 45-78): decode the identifier; on failure
return `None`, otherwise build the statistics record from the trades frame
it is given (the already sorted, deduplicated one). -/
def generate_metadata (instrument : List Char) (trades : List Trade)
    (files_count : Nat) : Option Metadata :=
  match parse_instrument_name instrument with
  | none => none
  | some parsed =>
    some { instrument := instrument
           asset := parsed.asset
           expiry_date := parsed.expiry_date
           strike_price := parsed.strike_price
           option_type := parsed.option_type
           total_trades := trades.length
           total_volume := (trades.map Trade.quantity).sum
           first_trade := tsMin trades
           last_trade := tsMax trades
           price_min := colMin Trade.price trades
           price_max := colMax Trade.price trades
           iv_min := colMin Trade.iv trades
           iv_max := colMax Trade.iv trades
           data_files_processed := files_count }

/-- The artifact pair of one instrument's output directory:
`trades.feather` plus, when present, `metadata.json`. -/
structure Artifacts where
  trades : List Trade
  metadata : Option Metadata
deriving DecidableEq, Repr

/-- `save_option_data` (lines 80-101): sort the combined frame by
timestamp, write `trades.feather`, then write `metadata.json` only if
`generate_metadata` succeeded (`if metadata:`).  The feather write is
unconditional and happens first. -/
def save_option_data (instrument : List Char) (trades : List Trade)
    (files_count : Nat) : Artifacts :=
  let sorted := sortByTimestamp trades
  { trades := sorted
    metadata := generate_metadata instrument sorted files_count }

/-- The write pass (lines 161-186) for one instrument: an instrument has an
output directory exactly when it has accumulated batches; its batches are
concatenated (`pd.concat`, preserving batch order), deduplicated by `id`
keeping the first occurrence, and saved. -/
def writerOutput (st : AggState) (s : List Char) : Option Artifacts :=
  match st.instruments_data s with
  | [] => none
  | b :: bs =>
    some (save_option_data s (dedupById [] ((b :: bs).flatten))
      (st.files_per_instrument s))

/-- `process_all_files` (lines 103-193): sort the globbed files; with no
files, print and `return` (i.e. `None`); otherwise run the scan pass and
the write pass.  The returned map sends each instrument identifier to the
artifacts written for it. -/
def process_all_files (files : List SourceFile) :
    Option (List Char → Option Artifacts) :=
  let sorted := sortFiles files
  if sorted.isEmpty then none
  else some (fun s => writerOutput (aggregate sorted) s)

/-- `main` (lines 195-224), as the pair (exit status, artifacts written).
A missing input directory exits with status 1 before any processing.  When
`process_all_files` returns `None` (no input files), the tuple unpacking in
`main` raises a `TypeError`, which the `except Exception` arm catches and
turns into `sys.exit(1)`; no artifacts are written on that path either. -/
def main_run (input_dir_exists : Bool) (files : List SourceFile) :
    Nat × (List Char → Option Artifacts) :=
  if input_dir_exists then
    match process_all_files files with
    | none => (1, fun _ => none)
    | some out => (0, out)
  else (1, fun _ => none)

/-! ## Helper definitions over the Aggregator state -/

/-- The batch of rows a file contributes to instrument `s`:
`df[df['instrument'] == instrument]`, grouping by the raw identifier. -/
def batchOf (f : SourceFile) (s : List Char) : List Trade :=
  (rowsOf f).filter (fun r => decide (r.instrument = s))

/-- Whether a file delivers at least one row of instrument `s`
(i.e. `s` occurs in `df['instrument'].unique()`). -/
def contributes (f : SourceFile) (s : List Char) : Bool :=
  (rowsOf f).any (fun r => decide (r.instrument = s))

/-! ## Lemmas about the scan pass -/

theorem stepFile_failed (st : AggState) (f : SourceFile) (h : f.content = none) :
    stepFile st f = st := by
  unfold stepFile
  rw [h]

theorem stepFile_data (st : AggState) (f : SourceFile) (s : List Char) :
    (stepFile st f).instruments_data s =
      st.instruments_data s ++ (if contributes f s then [batchOf f s] else []) := by
  have hbatch : batchOf f s = (rowsOf f).filter (fun r => decide (r.instrument = s)) := rfl
  have hcon : contributes f s = (rowsOf f).any (fun r => decide (r.instrument = s)) := rfl
  rcases hc : f.content with _ | rows
  · rw [hbatch, hcon]
    unfold stepFile rowsOf
    rw [hc]
    simp
  · rcases rows with _ | ⟨r0, rest⟩
    · rw [hbatch, hcon]
      unfold stepFile rowsOf
      rw [hc]
      simp
    · rw [hbatch, hcon]
      unfold stepFile rowsOf
      rw [hc]
      rcases hany : (r0 :: rest).any (fun r => decide (r.instrument = s)) with _ | _ <;>
        simp [hany]

theorem stepFile_fcount (st : AggState) (f : SourceFile) (s : List Char) :
    (stepFile st f).files_per_instrument s =
      st.files_per_instrument s + (if contributes f s then 1 else 0) := by
  have hcon : contributes f s = (rowsOf f).any (fun r => decide (r.instrument = s)) := rfl
  rcases hc : f.content with _ | rows
  · rw [hcon]
    unfold stepFile rowsOf
    rw [hc]
    simp
  · rcases rows with _ | ⟨r0, rest⟩
    · rw [hcon]
      unfold stepFile rowsOf
      rw [hc]
      simp
    · rw [hcon]
      unfold stepFile rowsOf
      rw [hc]
      rcases hany : (r0 :: rest).any (fun r => decide (r.instrument = s)) with _ | _ <;>
        simp [hany]

theorem foldl_stepFile_data (files : List SourceFile) : ∀ (st : AggState) (s : List Char),
    (files.foldl stepFile st).instruments_data s =
      st.instruments_data s ++
        files.flatMap (fun f => if contributes f s then [batchOf f s] else []) := by
  induction files with
  | nil => intro st s; simp
  | cons f fs ih =>
    intro st s
    rw [List.foldl_cons, ih, List.flatMap_cons, stepFile_data, List.append_assoc]

theorem aggregate_data (files : List SourceFile) (s : List Char) :
    (aggregate files).instruments_data s =
      files.flatMap (fun f => if contributes f s then [batchOf f s] else []) := by
  rw [aggregate, foldl_stepFile_data]
  rfl

theorem foldl_stepFile_fcount (files : List SourceFile) : ∀ (st : AggState) (s : List Char),
    (files.foldl stepFile st).files_per_instrument s =
      st.files_per_instrument s + files.countP (fun f => contributes f s) := by
  induction files with
  | nil => intro st s; simp
  | cons f fs ih =>
    intro st s
    rw [List.foldl_cons, ih, List.countP_cons, stepFile_fcount]
    omega

theorem aggregate_fcount (files : List SourceFile) (s : List Char) :
    (aggregate files).files_per_instrument s =
      files.countP (fun f => contributes f s) := by
  rw [aggregate, foldl_stepFile_fcount]
  simp [initAggState]

/-! ## Claim C2 (decoder rejection) -/

/-- C2, counterexample: the claim asserts that an option-class code outside
`{C, P}` yields a decode failure.  The code instead maps every fourth field
other than `"C"` to `PUT`: `BTC-19JUL19-10000-X` (class code `X`) decodes
successfully. -/
theorem c2_counterexample :
    parse_instrument_name "BTC-19JUL19-10000-X".toList =
      some { asset := "BTC".toList, expiry_date := "2019-07-19".toList,
             strike_price := 10000, option_type := OptionType.PUT } := by decide

/-- C2, amended: an identifier with other than exactly four
delimiter-separated fields, or a non-integer strike field, or an
unparseable date field is rejected by the decoder (which, being a total
function into `Option`, never raises); the option-class code, however, is
never rejected (any code other than `C` is decoded as `PUT`). -/
theorem c2_theorem (s : List Char)
    (h : (splitOnChar '-' s).length ≠ 4 ∨
      ∃ a e k c, splitOnChar '-' s = [a, e, k, c] ∧ (pyInt k = none ∨ parseDMY e = none)) :
    parse_instrument_name s = none := by
  unfold parse_instrument_name
  split
  · rename_i heq
    rcases h with h | ⟨a2, e2, k2, c2, heq2, h2⟩
    · rw [heq] at h
      simp at h
    · rw [heq] at heq2
      obtain ⟨rfl, rfl, rfl, rfl⟩ : a2 = _ ∧ e2 = _ ∧ k2 = _ ∧ c2 = _ := by
        simpa using heq2.symm
      rcases h2 with h2 | h2
      · rw [h2]
      · rcases hk : pyInt k2 with _ | strike
        · rfl
        · rw [h2]
  · rfl

/-- C2, witness for the amended theorem at three concrete rejected inputs:
too few fields, a non-integer strike, an unparseable date. -/
theorem c2_theorem_witness :
    parse_instrument_name "BTC-19JUL19".toList = none ∧
    parse_instrument_name "BTC-19JUL19-1e3-C".toList = none ∧
    parse_instrument_name "BTC-99XYZ99-10000-C".toList = none :=
  ⟨c2_theorem _ (Or.inl (by decide)),
   c2_theorem _ (Or.inr ⟨"BTC".toList, "19JUL19".toList, "1e3".toList, "C".toList,
     by decide, Or.inl (by decide)⟩),
   c2_theorem _ (Or.inr ⟨"BTC".toList, "99XYZ99".toList, "10000".toList, "C".toList,
     by decide, Or.inr (by decide)⟩)⟩

/-! ## Claim C6 (per-file contribution counting) -/

/-- C6: after the scan pass, an instrument's per-file counter equals the
number of scanned files that deliver at least one row of that instrument —
each such file counts exactly once however many rows it holds — and the
instrument accumulates exactly one batch per such file.  Grouping is by the
raw identifier string `s` (`r.instrument = s`), not by the decoded key. -/
theorem c6_theorem (files : List SourceFile) (s : List Char) :
    (aggregate files).files_per_instrument s =
      files.countP (fun f => (rowsOf f).any (fun r => decide (r.instrument = s))) ∧
    ((aggregate files).instruments_data s).length =
      files.countP (fun f => (rowsOf f).any (fun r => decide (r.instrument = s))) := by
  constructor
  · exact aggregate_fcount files s
  · rw [aggregate_data]
    induction files with
    | nil => simp
    | cons f fs ih =>
      rw [List.flatMap_cons, List.countP_cons, List.length_append, ih]
      rcases h : contributes f s with _ | _
      · have h2 : ((rowsOf f).any fun r => decide (r.instrument = s)) = false := h
        simp [h, h2]
      · have h2 : ((rowsOf f).any fun r => decide (r.instrument = s)) = true := h
        simp [h, h2]
        omega

/-! ## Claim C7 (failed source file is skipped, state preserved) -/

/-- C7: a source file that fails to load (its `content` is `none`, i.e.
`pd.read_feather` raised) is skipped by the scan loop's `except` arm, and
the whole Aggregator state — every instrument's batch list, every per-file
counter, and the run counters — is exactly the state produced by scanning
the remaining files alone. -/
theorem c7_theorem (pre post : List SourceFile) (bad : SourceFile)
    (h : bad.content = none) :
    aggregate (pre ++ bad :: post) = aggregate (pre ++ post) := by
  unfold aggregate
  rw [List.foldl_append, List.foldl_append, List.foldl_cons, stepFile_failed _ _ h]

/-- C7, witness: a corrupt middle file between two good ones. -/
theorem c7_theorem_witness :
    (SourceFile.mk "2019-07-02.feather".toList none).content = none ∧
    aggregate [⟨"2019-07-01.feather".toList, some [⟨"X".toList, 1, 10, 0, 0, 0⟩]⟩,
               ⟨"2019-07-02.feather".toList, none⟩,
               ⟨"2019-07-03.feather".toList, some [⟨"X".toList, 2, 20, 0, 0, 0⟩]⟩] =
      aggregate [⟨"2019-07-01.feather".toList, some [⟨"X".toList, 1, 10, 0, 0, 0⟩]⟩,
                 ⟨"2019-07-03.feather".toList, some [⟨"X".toList, 2, 20, 0, 0, 0⟩]⟩] :=
  ⟨rfl, c7_theorem [⟨"2019-07-01.feather".toList, some [⟨"X".toList, 1, 10, 0, 0, 0⟩]⟩]
    [⟨"2019-07-03.feather".toList, some [⟨"X".toList, 2, 20, 0, 0, 0⟩]⟩]
    (SourceFile.mk "2019-07-02.feather".toList none) rfl⟩

/-! ## Claim C8 (fatal precondition: missing or empty input) -/

/-- C8: with the input directory absent, `main` exits with status 1 before
any processing; with the directory present but no input files, the scan
returns `None`, whose unpacking raises and is converted to exit status 1.
On both paths no per-instrument artifact is written. -/
theorem c8_theorem (dirExists : Bool) (files : List SourceFile)
    (h : dirExists = false ∨ files = []) :
    (main_run dirExists files).1 = 1 ∧ ∀ s, (main_run dirExists files).2 s = none := by
  rcases h with rfl | rfl
  · simp [main_run]
  · cases dirExists <;> simp [main_run, process_all_files, sortFiles]

/-- C8, witness: the empty-input-directory path at a concrete call. -/
theorem c8_theorem_witness :
    ((true : Bool) = false ∨ ([] : List SourceFile) = []) ∧
    (main_run true []).1 = 1 ∧ ∀ s, (main_run true []).2 s = none :=
  ⟨Or.inr rfl, c8_theorem true [] (Or.inr rfl)⟩

/-! ## Characterizing the write pass -/

theorem writerOutput_eq_some (st : AggState) (s : List Char) (a : Artifacts)
    (h : writerOutput st s = some a) :
    st.instruments_data s ≠ [] ∧
    a = save_option_data s (dedupById [] (st.instruments_data s).flatten)
          (st.files_per_instrument s) := by
  unfold writerOutput at h
  split at h
  · exact absurd h (by simp)
  · rename_i b bs heq
    refine ⟨by rw [heq]; simp, ?_⟩
    rw [heq]
    exact (Option.some_inj.mp h).symm

theorem process_all_files_eq_some (files : List SourceFile)
    (out : List Char → Option Artifacts) (h : process_all_files files = some out) :
    out = fun s => writerOutput (aggregate (sortFiles files)) s := by
  have h2 : (if (sortFiles files).isEmpty = true then none
      else some fun s => writerOutput (aggregate (sortFiles files)) s) = some out := h
  split at h2
  · exact absurd h2 (by simp)
  · exact (Option.some_inj.mp h2).symm

/-! ## Minimum / maximum over the timestamp column -/

theorem foldlMin_le (l : List Trade) : ∀ (a : Nat),
    l.foldl (fun acc x => min acc x.timestamp) a ≤ a := by
  induction l with
  | nil => intro a; simp
  | cons x xs ih =>
    intro a
    rw [List.foldl_cons]
    exact le_trans (ih _) (min_le_left _ _)

theorem foldlMin_le_mem (l : List Trade) : ∀ (a : Nat) (r : Trade), r ∈ l →
    l.foldl (fun acc x => min acc x.timestamp) a ≤ r.timestamp := by
  induction l with
  | nil => intro a r h; cases h
  | cons x xs ih =>
    intro a r h
    rw [List.foldl_cons]
    rcases List.mem_cons.mp h with rfl | h2
    · exact le_trans (foldlMin_le xs _) (min_le_right _ _)
    · exact ih _ r h2

theorem foldlMin_attained (l : List Trade) : ∀ (a : Nat),
    l.foldl (fun acc x => min acc x.timestamp) a = a ∨
      ∃ r ∈ l, l.foldl (fun acc x => min acc x.timestamp) a = r.timestamp := by
  induction l with
  | nil => intro a; exact Or.inl rfl
  | cons x xs ih =>
    intro a
    rw [List.foldl_cons]
    rcases ih (min a x.timestamp) with h | ⟨r, hr, h⟩
    · rcases Nat.le_total a x.timestamp with hle | hle
      · exact Or.inl (by rw [h, min_eq_left hle])
      · exact Or.inr ⟨x, List.mem_cons_self x xs, by rw [h, min_eq_right hle]⟩
    · exact Or.inr ⟨r, List.mem_cons_of_mem _ hr, h⟩

theorem foldlMax_le (l : List Trade) : ∀ (a : Nat),
    a ≤ l.foldl (fun acc x => max acc x.timestamp) a := by
  induction l with
  | nil => intro a; simp
  | cons x xs ih =>
    intro a
    rw [List.foldl_cons]
    exact le_trans (le_max_left _ _) (ih _)

theorem foldlMax_mem_le (l : List Trade) : ∀ (a : Nat) (r : Trade), r ∈ l →
    r.timestamp ≤ l.foldl (fun acc x => max acc x.timestamp) a := by
  induction l with
  | nil => intro a r h; cases h
  | cons x xs ih =>
    intro a r h
    rw [List.foldl_cons]
    rcases List.mem_cons.mp h with rfl | h2
    · exact le_trans (le_max_right _ _) (foldlMax_le xs _)
    · exact ih _ r h2

theorem foldlMax_attained (l : List Trade) : ∀ (a : Nat),
    l.foldl (fun acc x => max acc x.timestamp) a = a ∨
      ∃ r ∈ l, l.foldl (fun acc x => max acc x.timestamp) a = r.timestamp := by
  induction l with
  | nil => intro a; exact Or.inl rfl
  | cons x xs ih =>
    intro a
    rw [List.foldl_cons]
    rcases ih (max a x.timestamp) with h | ⟨r, hr, h⟩
    · rcases Nat.le_total a x.timestamp with hle | hle
      · exact Or.inr ⟨x, List.mem_cons_self x xs, by rw [h, max_eq_right hle]⟩
      · exact Or.inl (by rw [h, max_eq_left hle])
    · exact Or.inr ⟨r, List.mem_cons_of_mem _ hr, h⟩

theorem tsMin_le (rows : List Trade) (r : Trade) (h : r ∈ rows) :
    tsMin rows ≤ r.timestamp := by
  rcases rows with _ | ⟨x, xs⟩
  · cases h
  · unfold tsMin
    rcases List.mem_cons.mp h with rfl | h2
    · exact foldlMin_le xs _
    · exact foldlMin_le_mem xs _ r h2

theorem tsMin_mem (rows : List Trade) (hne : rows ≠ []) :
    ∃ r ∈ rows, r.timestamp = tsMin rows := by
  rcases rows with _ | ⟨x, xs⟩
  · exact absurd rfl hne
  · unfold tsMin
    rcases foldlMin_attained xs x.timestamp with h | ⟨r, hr, h⟩
    · exact ⟨x, List.mem_cons_self x xs, h.symm⟩
    · exact ⟨r, List.mem_cons_of_mem _ hr, h.symm⟩

theorem le_tsMax (rows : List Trade) (r : Trade) (h : r ∈ rows) :
    r.timestamp ≤ tsMax rows := by
  rcases rows with _ | ⟨x, xs⟩
  · cases h
  · unfold tsMax
    rcases List.mem_cons.mp h with rfl | h2
    · exact foldlMax_le xs _
    · exact foldlMax_mem_le xs _ r h2

theorem tsMax_mem (rows : List Trade) (hne : rows ≠ []) :
    ∃ r ∈ rows, r.timestamp = tsMax rows := by
  rcases rows with _ | ⟨x, xs⟩
  · exact absurd rfl hne
  · unfold tsMax
    rcases foldlMax_attained xs x.timestamp with h | ⟨r, hr, h⟩
    · exact ⟨x, List.mem_cons_self x xs, h.symm⟩
    · exact ⟨r, List.mem_cons_of_mem _ hr, h.symm⟩

/-! ## Nonemptiness of the persisted row set -/

theorem mem_aggregate_data_ne_nil (files : List SourceFile) (s : List Char)
    (b : List Trade) (hb : b ∈ (aggregate files).instruments_data s) : b ≠ [] := by
  rw [aggregate_data] at hb
  rcases List.mem_flatMap.mp hb with ⟨f, hf, hmem⟩
  rcases h : contributes f s with _ | _
  · rw [h] at hmem
    simp at hmem
  · rw [h] at hmem
    simp at hmem
    subst hmem
    rcases List.any_eq_true.mp h with ⟨r, hr, hpr⟩
    exact List.ne_nil_of_mem (List.mem_filter.mpr ⟨hr, hpr⟩)

theorem dedupById_ne_nil (l : List Trade) (h : l ≠ []) : dedupById [] l ≠ [] := by
  rcases l with _ | ⟨r, rs⟩
  · exact absurd rfl h
  · unfold dedupById
    simp

theorem sortByTimestamp_ne_nil (rows : List Trade) (h : rows ≠ []) :
    sortByTimestamp rows ≠ [] := by
  intro hcon
  apply h
  have hperm := List.perm_insertionSort tsLe rows
  rw [sortByTimestamp] at hcon
  rw [hcon] at hperm
  exact (List.Perm.nil_eq hperm).symm

theorem writerOutput_trades_ne_nil (files : List SourceFile) (s : List Char)
    (a : Artifacts) (h : writerOutput (aggregate files) s = some a) :
    a.trades ≠ [] := by
  obtain ⟨hne, ha⟩ := writerOutput_eq_some _ _ _ h
  rcases hd : (aggregate files).instruments_data s with _ | ⟨b, bs⟩
  · exact absurd hd hne
  · have hb : b ≠ [] :=
      mem_aggregate_data_ne_nil files s b (by rw [hd]; exact List.mem_cons_self b bs)
    have hflat : ((aggregate files).instruments_data s).flatten ≠ [] := by
      rw [hd]
      rcases b with _ | ⟨r, rs⟩
      · exact absurd rfl hb
      · simp
    rw [ha]
    exact sortByTimestamp_ne_nil _ (dedupById_ne_nil _ hflat)

/-! ## Claim C3 (chronological invariant) -/

/-- C3: for every instrument the pipeline writes, the persisted trade
history is non-decreasing in timestamp from first to last row, whatever the
source-file order of delivery (`files` is arbitrary here). -/
theorem c3_theorem (files : List SourceFile) (s : List Char)
    (out : List Char → Option Artifacts) (a : Artifacts)
    (hrun : process_all_files files = some out) (ha : out s = some a) :
    a.trades.Pairwise (fun x y => x.timestamp ≤ y.timestamp) := by
  rw [process_all_files_eq_some files out hrun] at ha
  obtain ⟨-, ha2⟩ := writerOutput_eq_some _ _ _ ha
  rw [ha2]
  exact List.sorted_insertionSort tsLe _

/-- C3, witness: one file delivering out-of-order timestamps. -/
theorem c3_theorem_witness :
    (fun s => writerOutput (aggregate (sortFiles
        [⟨"2019-07-01.feather".toList,
          some [⟨"X".toList, 1, 100, 0, 0, 0⟩, ⟨"X".toList, 2, 50, 0, 0, 0⟩]⟩])) s)
      "X".toList =
      some { trades := [⟨"X".toList, 2, 50, 0, 0, 0⟩, ⟨"X".toList, 1, 100, 0, 0, 0⟩],
             metadata := none } ∧
    (Artifacts.mk [⟨"X".toList, 2, 50, 0, 0, 0⟩, ⟨"X".toList, 1, 100, 0, 0, 0⟩]
        none).trades.Pairwise (fun x y => x.timestamp ≤ y.timestamp) :=
  ⟨by decide,
   c3_theorem
     [⟨"2019-07-01.feather".toList,
       some [⟨"X".toList, 1, 100, 0, 0, 0⟩, ⟨"X".toList, 2, 50, 0, 0, 0⟩]⟩]
     "X".toList
     (fun s => writerOutput (aggregate (sortFiles
       [⟨"2019-07-01.feather".toList,
         some [⟨"X".toList, 1, 100, 0, 0, 0⟩, ⟨"X".toList, 2, 50, 0, 0, 0⟩]⟩])) s)
     (Artifacts.mk [⟨"X".toList, 2, 50, 0, 0, 0⟩, ⟨"X".toList, 1, 100, 0, 0, 0⟩] none)
     rfl (by decide)⟩

/-! ## Claim C1 (decode failure and the artifact pair) -/

/-- C1, counterexample: the claim asserts that when decoding fails neither
artifact is written.  In the code `save_option_data` writes the trade
table unconditionally and only skips the metadata record: for the
undecodable identifier `BAD` the pipeline persists a trade history with no
matching metadata — exactly the state the claim says a reader can never
observe. -/
theorem c1_counterexample :
    parse_instrument_name "BAD".toList = none ∧
    writerOutput (aggregate [⟨"2019-07-01.feather".toList,
        some [⟨"BAD".toList, 1, 10, 0, 0, 0⟩]⟩]) "BAD".toList =
      some { trades := [⟨"BAD".toList, 1, 10, 0, 0, 0⟩], metadata := none } := by
  decide

/-- C1, amended: for every instrument whose identifier fails to decode the
Writer still persists the (nonempty) trade-history artifact and skips only
the metadata artifact, so a reader observes a trade table without its
matching metadata. -/
theorem c1_theorem (files : List SourceFile) (s : List Char)
    (out : List Char → Option Artifacts) (a : Artifacts)
    (hparse : parse_instrument_name s = none)
    (hrun : process_all_files files = some out) (ha : out s = some a) :
    a.trades ≠ [] ∧ a.metadata = none := by
  rw [process_all_files_eq_some files out hrun] at ha
  constructor
  · exact writerOutput_trades_ne_nil _ _ _ ha
  · obtain ⟨-, ha2⟩ := writerOutput_eq_some _ _ _ ha
    rw [ha2]
    show generate_metadata s _ _ = none
    unfold generate_metadata
    rw [hparse]

/-- C1, witness for the amended theorem on the `BAD` instrument. -/
theorem c1_theorem_witness :
    parse_instrument_name "BAD2".toList = none ∧
    (fun s => writerOutput (aggregate (sortFiles [⟨"2019-07-01.feather".toList,
        some [⟨"BAD2".toList, 7, 11, 0, 0, 0⟩]⟩])) s) "BAD2".toList =
      some { trades := [⟨"BAD2".toList, 7, 11, 0, 0, 0⟩], metadata := none } ∧
    (Artifacts.mk [⟨"BAD2".toList, 7, 11, 0, 0, 0⟩] none).trades ≠ [] ∧
    (Artifacts.mk [⟨"BAD2".toList, 7, 11, 0, 0, 0⟩] none).metadata = none :=
  ⟨by decide, by decide,
   c1_theorem
     [⟨"2019-07-01.feather".toList, some [⟨"BAD2".toList, 7, 11, 0, 0, 0⟩]⟩]
     "BAD2".toList
     (fun s => writerOutput (aggregate (sortFiles [⟨"2019-07-01.feather".toList,
       some [⟨"BAD2".toList, 7, 11, 0, 0, 0⟩]⟩])) s)
     (Artifacts.mk [⟨"BAD2".toList, 7, 11, 0, 0, 0⟩] none)
     (by decide) rfl (by decide)⟩

/-! ## Claim C4 (metadata consistency) -/

/-- C4: whenever the pipeline persists a metadata record, `total_trades`
is the row count of the persisted trade history, `total_volume` the sum of
its `quantity` column, and `first_trade`/`last_trade` are attained
minimum/maximum of its timestamps (the persisted history being the sorted,
deduplicated row set). -/
theorem c4_theorem (files : List SourceFile) (s : List Char)
    (out : List Char → Option Artifacts) (a : Artifacts) (m : Metadata)
    (hrun : process_all_files files = some out) (ha : out s = some a)
    (hm : a.metadata = some m) :
    m.total_trades = a.trades.length ∧
    m.total_volume = (a.trades.map Trade.quantity).sum ∧
    (∀ r ∈ a.trades, m.first_trade ≤ r.timestamp ∧ r.timestamp ≤ m.last_trade) ∧
    (∃ r ∈ a.trades, r.timestamp = m.first_trade) ∧
    (∃ r ∈ a.trades, r.timestamp = m.last_trade) := by
  rw [process_all_files_eq_some files out hrun] at ha
  have hne : a.trades ≠ [] := writerOutput_trades_ne_nil _ _ _ ha
  obtain ⟨-, ha2⟩ := writerOutput_eq_some _ _ _ ha
  subst ha2
  have hm2 : generate_metadata s
      (sortByTimestamp (dedupById []
        ((aggregate (sortFiles files)).instruments_data s).flatten))
      ((aggregate (sortFiles files)).files_per_instrument s) = some m := hm
  unfold generate_metadata at hm2
  split at hm2
  · exact absurd hm2 (by simp)
  · have hm3 := Option.some_inj.mp hm2
    subst hm3
    have hne2 : sortByTimestamp (dedupById []
        ((aggregate (sortFiles files)).instruments_data s).flatten) ≠ [] := hne
    refine ⟨rfl, rfl, fun r hr => ⟨tsMin_le _ r hr, le_tsMax _ r hr⟩, ?_, ?_⟩
    · exact tsMin_mem _ hne2
    · exact tsMax_mem _ hne2

/-- C4, witness: a decodable instrument with two trades. -/
theorem c4_theorem_witness :
    (fun s => writerOutput (aggregate (sortFiles
        [⟨"2019-07-01.feather".toList,
          some [⟨"BTC-19JUL19-10000-C".toList, 1, 100, 5, 2, 7⟩,
                ⟨"BTC-19JUL19-10000-C".toList, 2, 50, 3, 4, 9⟩]⟩])) s)
      "BTC-19JUL19-10000-C".toList =
      some (Artifacts.mk [⟨"BTC-19JUL19-10000-C".toList, 2, 50, 3, 4, 9⟩,
                          ⟨"BTC-19JUL19-10000-C".toList, 1, 100, 5, 2, 7⟩]
        (some (Metadata.mk "BTC-19JUL19-10000-C".toList "BTC".toList
          "2019-07-19".toList 10000 OptionType.CALL 2 6 50 100 3 5 7 9 1))) ∧
    ((2 : Nat) = 2 ∧ (6 : Int) = 6 ∧
      (∀ r ∈ [Trade.mk "BTC-19JUL19-10000-C".toList 2 50 3 4 9,
              Trade.mk "BTC-19JUL19-10000-C".toList 1 100 5 2 7],
        (50 : Nat) ≤ r.timestamp ∧ r.timestamp ≤ 100) ∧
      (∃ r ∈ [Trade.mk "BTC-19JUL19-10000-C".toList 2 50 3 4 9,
              Trade.mk "BTC-19JUL19-10000-C".toList 1 100 5 2 7],
        r.timestamp = 50) ∧
      (∃ r ∈ [Trade.mk "BTC-19JUL19-10000-C".toList 2 50 3 4 9,
              Trade.mk "BTC-19JUL19-10000-C".toList 1 100 5 2 7],
        r.timestamp = 100)) := by
  refine ⟨by decide, ?_⟩
  exact c4_theorem
    [⟨"2019-07-01.feather".toList,
      some [⟨"BTC-19JUL19-10000-C".toList, 1, 100, 5, 2, 7⟩,
            ⟨"BTC-19JUL19-10000-C".toList, 2, 50, 3, 4, 9⟩]⟩]
    "BTC-19JUL19-10000-C".toList
    (fun s => writerOutput (aggregate (sortFiles
      [⟨"2019-07-01.feather".toList,
        some [⟨"BTC-19JUL19-10000-C".toList, 1, 100, 5, 2, 7⟩,
              ⟨"BTC-19JUL19-10000-C".toList, 2, 50, 3, 4, 9⟩]⟩])) s)
    (Artifacts.mk [⟨"BTC-19JUL19-10000-C".toList, 2, 50, 3, 4, 9⟩,
                   ⟨"BTC-19JUL19-10000-C".toList, 1, 100, 5, 2, 7⟩]
      (some (Metadata.mk "BTC-19JUL19-10000-C".toList "BTC".toList
        "2019-07-19".toList 10000 OptionType.CALL 2 6 50 100 3 5 7 9 1)))
    (Metadata.mk "BTC-19JUL19-10000-C".toList "BTC".toList
      "2019-07-19".toList 10000 OptionType.CALL 2 6 50 100 3 5 7 9 1)
    rfl (by decide) (by decide)

/-! ## Claim C5 (end-to-end example) -/

/-- C5: with day 1 delivering `{id=1, ts=100}` and `{id=2, ts=50}` and day 2
delivering the duplicate `{id=1, ts=100}` and a new `{id=3, ts=75}` for one
instrument (any decodable identifier; the spec writes it schematically as
`X`), the pipeline outputs exactly three rows ordered `50, 75, 100` with
`total_trades = 3` and `data_files_processed = 2`. -/
theorem c5_theorem (s : List Char) (p : ParsedInstrument)
    (hs : parse_instrument_name s = some p) :
    ∃ out a m,
      process_all_files
          [⟨"2019-07-01.feather".toList, some [⟨s, 1, 100, 0, 0, 0⟩, ⟨s, 2, 50, 0, 0, 0⟩]⟩,
           ⟨"2019-07-02.feather".toList, some [⟨s, 1, 100, 0, 0, 0⟩, ⟨s, 3, 75, 0, 0, 0⟩]⟩] =
        some out ∧
      out s = some a ∧
      a.trades.map Trade.timestamp = [50, 75, 100] ∧
      a.trades.map Trade.id = [2, 3, 1] ∧
      a.metadata = some m ∧
      m.total_trades = 3 ∧ m.data_files_processed = 2 := by
  have hds : (decide (s = s)) = true := decide_eq_true rfl
  have hdata :
      (aggregate [(⟨"2019-07-01.feather".toList,
          some [⟨s, 1, 100, 0, 0, 0⟩, ⟨s, 2, 50, 0, 0, 0⟩]⟩ : SourceFile),
        ⟨"2019-07-02.feather".toList,
          some [⟨s, 1, 100, 0, 0, 0⟩, ⟨s, 3, 75, 0, 0, 0⟩]⟩]).instruments_data s =
      [[⟨s, 1, 100, 0, 0, 0⟩, ⟨s, 2, 50, 0, 0, 0⟩],
       [⟨s, 1, 100, 0, 0, 0⟩, ⟨s, 3, 75, 0, 0, 0⟩]] := by
    rw [aggregate_data]
    simp [contributes, batchOf, rowsOf, hds]
  have hfc :
      (aggregate [(⟨"2019-07-01.feather".toList,
          some [⟨s, 1, 100, 0, 0, 0⟩, ⟨s, 2, 50, 0, 0, 0⟩]⟩ : SourceFile),
        ⟨"2019-07-02.feather".toList,
          some [⟨s, 1, 100, 0, 0, 0⟩, ⟨s, 3, 75, 0, 0, 0⟩]⟩]).files_per_instrument s = 2 := by
    rw [aggregate_fcount]
    simp [contributes, rowsOf, hds]
  have hout :
      writerOutput (aggregate (sortFiles
        [⟨"2019-07-01.feather".toList, some [⟨s, 1, 100, 0, 0, 0⟩, ⟨s, 2, 50, 0, 0, 0⟩]⟩,
         ⟨"2019-07-02.feather".toList, some [⟨s, 1, 100, 0, 0, 0⟩, ⟨s, 3, 75, 0, 0, 0⟩]⟩])) s =
      some (Artifacts.mk
        [⟨s, 2, 50, 0, 0, 0⟩, ⟨s, 3, 75, 0, 0, 0⟩, ⟨s, 1, 100, 0, 0, 0⟩]
        (some (Metadata.mk s p.asset p.expiry_date p.strike_price p.option_type
          3 0 50 100 0 0 0 0 2))) := by
    rw [show sortFiles
        [(⟨"2019-07-01.feather".toList,
            some [⟨s, 1, 100, 0, 0, 0⟩, ⟨s, 2, 50, 0, 0, 0⟩]⟩ : SourceFile),
         ⟨"2019-07-02.feather".toList,
            some [⟨s, 1, 100, 0, 0, 0⟩, ⟨s, 3, 75, 0, 0, 0⟩]⟩] =
      [⟨"2019-07-01.feather".toList, some [⟨s, 1, 100, 0, 0, 0⟩, ⟨s, 2, 50, 0, 0, 0⟩]⟩,
       ⟨"2019-07-02.feather".toList, some [⟨s, 1, 100, 0, 0, 0⟩, ⟨s, 3, 75, 0, 0, 0⟩]⟩]
      from rfl]
    unfold writerOutput
    rw [hdata, hfc]
    simp only [List.flatten]
    simp [save_option_data, dedupById, sortByTimestamp, List.insertionSort,
      List.orderedInsert, tsLe, generate_metadata, hs, tsMin, tsMax, colMin, colMax]
  exact ⟨_, _, _, rfl, hout, by simp, by simp, rfl, rfl, rfl⟩

/-- C5, witness at the concrete decodable instrument `BTC-19JUL19-10000-C`. -/
theorem c5_theorem_witness :
    parse_instrument_name "BTC-19JUL19-10000-C".toList =
      some (ParsedInstrument.mk "BTC".toList "2019-07-19".toList 10000
        OptionType.CALL) ∧
    ∃ out a m,
      process_all_files
          [⟨"2019-07-01.feather".toList,
            some [⟨"BTC-19JUL19-10000-C".toList, 1, 100, 0, 0, 0⟩,
                  ⟨"BTC-19JUL19-10000-C".toList, 2, 50, 0, 0, 0⟩]⟩,
           ⟨"2019-07-02.feather".toList,
            some [⟨"BTC-19JUL19-10000-C".toList, 1, 100, 0, 0, 0⟩,
                  ⟨"BTC-19JUL19-10000-C".toList, 3, 75, 0, 0, 0⟩]⟩] =
        some out ∧
      out "BTC-19JUL19-10000-C".toList = some a ∧
      a.trades.map Trade.timestamp = [50, 75, 100] ∧
      a.trades.map Trade.id = [2, 3, 1] ∧
      a.metadata = some m ∧
      m.total_trades = 3 ∧ m.data_files_processed = 2 :=
  ⟨by decide,
   c5_theorem "BTC-19JUL19-10000-C".toList
     (ParsedInstrument.mk "BTC".toList "2019-07-19".toList 10000 OptionType.CALL)
     (by decide)⟩

/-! ## Split / join and digit-rendering lemmas for the round trip -/

theorem splitOnChar_not_mem (sep : Char) : ∀ cs : List Char, sep ∉ cs →
    splitOnChar sep cs = [cs] := by
  intro cs
  induction cs with
  | nil => intro _; rfl
  | cons c cs ih =>
    intro h
    have hc : ¬ c = sep := fun hcon => h (hcon ▸ List.mem_cons_self c cs)
    have hcs : sep ∉ cs := fun hcon => h (List.mem_cons_of_mem c hcon)
    unfold splitOnChar
    rw [if_neg hc, ih hcs]

theorem splitOnChar_append (sep : Char) : ∀ (a rest : List Char), sep ∉ a →
    splitOnChar sep (a ++ sep :: rest) = a :: splitOnChar sep rest := by
  intro a
  induction a with
  | nil =>
    intro rest _
    show splitOnChar sep (sep :: rest) = [] :: splitOnChar sep rest
    rw [splitOnChar]
    rw [if_pos rfl]
  | cons c cs ih =>
    intro rest h
    have hc : ¬ c = sep := fun hcon => h (hcon ▸ List.mem_cons_self c cs)
    have hcs : sep ∉ cs := fun hcon => h (List.mem_cons_of_mem c hcon)
    show splitOnChar sep (c :: (cs ++ sep :: rest)) = (c :: cs) :: splitOnChar sep rest
    rw [splitOnChar]
    rw [if_neg hc, ih rest hcs]

theorem digitChar_isDigit (d : Nat) (h : d < 10) :
    isAsciiDigit (digitChar d) = true := by
  interval_cases d <;> decide

theorem digitChar_ne_dash (d : Nat) (h : d < 10) : digitChar d ≠ '-' := by
  interval_cases d <;> decide

theorem digitChar_ne_plus (d : Nat) (h : d < 10) : digitChar d ≠ '+' := by
  interval_cases d <;> decide

theorem digitVal_digitChar (d : Nat) (h : d < 10) : digitVal (digitChar d) = d := by
  interval_cases d <;> decide

theorem natToDigits_ne_nil (n : Nat) : natToDigits n ≠ [] := by
  rw [natToDigits]
  split
  · simp
  · simp

theorem natToDigits_all_digits (n : Nat) :
    ∀ c ∈ natToDigits n, isAsciiDigit c = true := by
  induction n using Nat.strong_induction_on with
  | _ n ih =>
    rw [natToDigits]
    split
    · rename_i h
      intro c hc
      rw [List.mem_singleton.mp hc]
      exact digitChar_isDigit n h
    · rename_i h
      intro c hc
      rcases List.mem_append.mp hc with hc2 | hc2
      · exact ih (n / 10) (Nat.div_lt_self (by omega) (by omega)) c hc2
      · rw [List.mem_singleton.mp hc2]
        exact digitChar_isDigit (n % 10) (Nat.mod_lt _ (by omega))

theorem natToDigits_no_dash (n : Nat) : '-' ∉ natToDigits n := by
  intro h
  have := natToDigits_all_digits n '-' h
  exact absurd this (by decide)

theorem digitsVal_append_one (xs : List Char) (c : Char) :
    digitsVal (xs ++ [c]) = digitsVal xs * 10 + digitVal c := by
  unfold digitsVal
  rw [List.foldl_append]
  rfl

theorem digitsVal_natToDigits (n : Nat) : digitsVal (natToDigits n) = n := by
  induction n using Nat.strong_induction_on with
  | _ n ih =>
    rw [natToDigits]
    split
    · rename_i h
      show 0 * 10 + digitVal (digitChar n) = n
      rw [digitVal_digitChar n h]
      omega
    · rename_i h
      rw [digitsVal_append_one,
        ih (n / 10) (Nat.div_lt_self (by omega) (by omega)),
        digitVal_digitChar (n % 10) (Nat.mod_lt _ (by omega))]
      omega

theorem pyInt_natToDigits (n : Nat) : pyInt (natToDigits n) = some (n : Int) := by
  have hall : (natToDigits n).all isAsciiDigit = true :=
    List.all_eq_true.mpr (natToDigits_all_digits n)
  rcases hd : natToDigits n with _ | ⟨c, rest⟩
  · exact absurd hd (natToDigits_ne_nil n)
  · have hcdig : isAsciiDigit c = true := by
      have := natToDigits_all_digits n c (by rw [hd]; exact List.mem_cons_self c rest)
      exact this
    have hcne : c ≠ '-' := by
      intro hcon
      rw [hcon] at hcdig
      exact absurd hcdig (by decide)
    have hcne2 : c ≠ '+' := by
      intro hcon
      rw [hcon] at hcdig
      exact absurd hcdig (by decide)
    rw [hd] at hall
    unfold pyInt
    split
    · rename_i heq
      exact List.noConfusion heq
    · rename_i rest2 heq
      exact absurd (List.cons.inj heq).1 hcne
    · rename_i rest2 heq
      exact absurd (List.cons.inj heq).1 hcne2
    · rw [if_pos hall, ← hd, digitsVal_natToDigits]

/-! ## Claim C9 (decoder round trip) -/

/-- C9: a well-formed identifier built by joining an asset symbol (no
delimiter inside), a date token the `%d%b%y` grammar accepts as
`(y, m, d)`, a natural-number strike rendered in decimal, and a class code
in `{C, P}` decodes successfully to exactly those four fields (the expiry
being stored in ISO form, the class as `CALL`/`PUT`). -/
theorem c9_theorem (asset dateTok : List Char) (strike : Nat) (cls : Char)
    (y m d : Nat)
    (hasset : '-' ∉ asset) (hdate : '-' ∉ dateTok)
    (hdmy : parseDMY dateTok = some (y, m, d))
    (hcls : cls = 'C' ∨ cls = 'P') :
    parse_instrument_name
        (asset ++ '-' :: (dateTok ++ '-' :: (natToDigits strike ++ '-' :: [cls]))) =
      some (ParsedInstrument.mk asset (isoDate y m d) (strike : Int)
        (if cls = 'C' then OptionType.CALL else OptionType.PUT)) := by
  have hclsne : '-' ∉ [cls] := by
    rcases hcls with rfl | rfl <;> decide
  have hsplit : splitOnChar '-'
      (asset ++ '-' :: (dateTok ++ '-' :: (natToDigits strike ++ '-' :: [cls]))) =
      [asset, dateTok, natToDigits strike, [cls]] := by
    rw [splitOnChar_append _ _ _ hasset, splitOnChar_append _ _ _ hdate,
        splitOnChar_append _ _ _ (natToDigits_no_dash strike),
        splitOnChar_not_mem _ _ hclsne]
  have h1 : parse_instrument_name
      (asset ++ '-' :: (dateTok ++ '-' :: (natToDigits strike ++ '-' :: [cls]))) =
      (match pyInt (natToDigits strike) with
       | none => none
       | some strikeVal =>
         match parseDMY dateTok with
         | none => none
         | some (y2, m2, d2) =>
           some (ParsedInstrument.mk asset (isoDate y2 m2 d2) strikeVal
             (if [cls] = ['C'] then OptionType.CALL else OptionType.PUT))) := by
    unfold parse_instrument_name
    rw [hsplit]
  rw [h1, pyInt_natToDigits, hdmy]
  rcases hcls with rfl | rfl <;> rfl

/-- C9, witness at `BTC`, `19JUL19`, strike `10000`, class `C`. -/
theorem c9_theorem_witness :
    ('-' ∉ "BTC".toList) ∧ ('-' ∉ "19JUL19".toList) ∧
    parseDMY "19JUL19".toList = some (2019, 7, 19) ∧
    ('C' = 'C' ∨ 'C' = 'P') ∧
    parse_instrument_name
        ("BTC".toList ++ '-' :: ("19JUL19".toList ++ '-' ::
          (natToDigits 10000 ++ '-' :: ['C']))) =
      some (ParsedInstrument.mk "BTC".toList (isoDate 2019 7 19) (10000 : Int)
        (if 'C' = 'C' then OptionType.CALL else OptionType.PUT)) :=
  ⟨by decide, by decide, by decide, Or.inl rfl,
   c9_theorem "BTC".toList "19JUL19".toList 10000 'C' 2019 7 19
     (by decide) (by decide) (by decide) (Or.inl rfl)⟩

/-! ## Claim C10 (duplicate identifiers keep the earliest file's row) -/

/-- A row of instrument `s` carrying trade identifier `t`. -/
def matchRow (s : List Char) (t : Nat) (r : Trade) : Bool :=
  decide (r.instrument = s ∧ r.id = t)

theorem batchOf_find? (s : List Char) (t : Nat) : ∀ l : List Trade,
    (l.filter (fun x => decide (x.instrument = s))).find? (fun x => decide (x.id = t)) =
      l.find? (matchRow s t)
  | [] => rfl
  | r :: rs => by
    have IH := batchOf_find? s t rs
    rcases hq : decide (r.instrument = s) with _ | _
    · have hm : matchRow s t r = false :=
        decide_eq_false (fun hcon => (of_decide_eq_false hq) hcon.1)
      simp [List.filter_cons, List.find?_cons, hq, hm, IH]
    · rcases hp : decide (r.id = t) with _ | _
      · have hm : matchRow s t r = false :=
          decide_eq_false (fun hcon => (of_decide_eq_false hp) hcon.2)
        simp [List.filter_cons, List.find?_cons, hq, hp, hm, IH]
      · have hm : matchRow s t r = true :=
          decide_eq_true ⟨of_decide_eq_true hq, of_decide_eq_true hp⟩
        simp [List.filter_cons, List.find?_cons, hq, hp, hm]

theorem dedupById_filter_seen (t : Nat) : ∀ (l : List Trade) (seen : List Nat),
    t ∈ seen →
    (dedupById seen l).filter (fun x => decide (x.id = t)) = []
  | [], _, _ => rfl
  | r :: rs, seen, h => by
    unfold dedupById
    by_cases hmem : r.id ∈ seen
    · rw [if_pos hmem]
      exact dedupById_filter_seen t rs seen h
    · rw [if_neg hmem]
      have hne : decide (r.id = t) = false :=
        decide_eq_false (fun hcon => hmem (hcon ▸ h))
      simp only [List.filter_cons, hne, Bool.false_eq_true, if_false]
      exact dedupById_filter_seen t rs (r.id :: seen) (List.mem_cons_of_mem _ h)

theorem dedupById_filter_first (t : Nat) : ∀ (l : List Trade) (seen : List Nat),
    t ∉ seen →
    (dedupById seen l).filter (fun x => decide (x.id = t)) =
      (l.find? (fun x => decide (x.id = t))).toList
  | [], _, _ => rfl
  | r :: rs, seen, h => by
    unfold dedupById
    by_cases hmem : r.id ∈ seen
    · have hne : decide (r.id = t) = false :=
        decide_eq_false (fun hcon => h (hcon ▸ hmem))
      rw [if_pos hmem, List.find?_cons, hne]
      exact dedupById_filter_first t rs seen h
    · rw [if_neg hmem]
      rcases hp : decide (r.id = t) with _ | _
      · simp only [List.filter_cons, List.find?_cons, hp, Bool.false_eq_true, if_false]
        refine dedupById_filter_first t rs (r.id :: seen) ?_
        intro hcon
        rcases List.mem_cons.mp hcon with hcon2 | hcon2
        · exact absurd hcon2.symm (of_decide_eq_false hp)
        · exact h hcon2
      · have hid : r.id = t := of_decide_eq_true hp
        simp only [List.filter_cons, List.find?_cons, hp, if_true]
        have htail : (dedupById (r.id :: seen) rs).filter
            (fun x => decide (x.id = t)) = [] :=
          dedupById_filter_seen t rs (r.id :: seen)
            (by rw [hid]; exact List.mem_cons_self t seen)
        rw [htail]
        rfl

theorem not_contributes_batch_nil (f : SourceFile) (s : List Char)
    (h : contributes f s = false) : batchOf f s = [] := by
  rcases hb : batchOf f s with _ | ⟨r, rs⟩
  · rfl
  · exfalso
    have hr : r ∈ batchOf f s := by
      rw [hb]
      exact List.mem_cons_self r rs
    have hmem := List.mem_filter.mp hr
    have hany : contributes f s = true := List.any_eq_true.mpr ⟨r, hmem.1, hmem.2⟩
    rw [h] at hany
    exact Bool.noConfusion hany

theorem aggregate_data_flatten (files : List SourceFile) (s : List Char) :
    ((aggregate files).instruments_data s).flatten =
      files.flatMap (fun f => batchOf f s) := by
  rw [aggregate_data]
  induction files with
  | nil => rfl
  | cons f fs ih =>
    rw [List.flatMap_cons, List.flatMap_cons, List.flatten_append, ih]
    rcases h : contributes f s with _ | _
    · rw [not_contributes_batch_nil f s h]
      simp
    · simp

/-- C10: when the same trade identifier `t` of instrument `s` is delivered
by several source files, the row that survives deduplication is the first
matching row of the earliest contributing file in lexicographic filename
order: files are scanned sorted by name, batches concatenate in scan
order, and `drop_duplicates(keep='first')` keeps the first occurrence. -/
theorem c10_theorem (files : List SourceFile) (s : List Char) (t : Nat)
    (f : SourceFile) (r : Trade)
    (hnodup : (files.map SourceFile.name).Nodup)
    (hf : f ∈ files)
    (hr : (rowsOf f).find? (matchRow s t) = some r)
    (hfirst : ∀ g ∈ files, (rowsOf g).any (matchRow s t) = true →
      g = f ∨ nameLt f.name g.name = true) :
    (dedupById []
        (((aggregate (sortFiles files)).instruments_data s).flatten)).filter
      (fun x => decide (x.id = t)) = [r] := by
  rw [dedupById_filter_first t _ [] (by simp), aggregate_data_flatten]
  suffices hfind : ((sortFiles files).flatMap fun g => batchOf g s).find?
      (fun x => decide (x.id = t)) = some r by
    rw [hfind]
    rfl
  have hperm : List.Perm (sortFiles files) files := List.perm_insertionSort fileLe files
  have hsorted : (sortFiles files).Pairwise fileLe :=
    List.sorted_insertionSort fileLe files
  have hnodup2 : ((sortFiles files).map SourceFile.name).Nodup :=
    (List.Perm.nodup_iff (hperm.map SourceFile.name)).mpr hnodup
  have hf2 : f ∈ sortFiles files := hperm.mem_iff.mpr hf
  obtain ⟨l₁, l₂, hsplit⟩ := List.append_of_mem hf2
  rw [hsplit] at hsorted hnodup2 ⊢
  rw [List.flatMap_append, List.flatMap_cons, List.find?_append, List.find?_append]
  have hl1 : (l₁.flatMap fun g => batchOf g s).find?
      (fun x => decide (x.id = t)) = none := by
    rw [List.find?_eq_none]
    intro x hx hpx
    rcases List.mem_flatMap.mp hx with ⟨g, hg, hxg⟩
    obtain ⟨hxrow, hxinst⟩ := List.mem_filter.mp hxg
    have hmx : matchRow s t x = true :=
      decide_eq_true ⟨of_decide_eq_true hxinst, of_decide_eq_true hpx⟩
    have hany : (rowsOf g).any (matchRow s t) = true :=
      List.any_eq_true.mpr ⟨x, hxrow, hmx⟩
    have hgfiles : g ∈ files := by
      apply hperm.mem_iff.mp
      rw [hsplit]
      exact List.mem_append.mpr (Or.inl hg)
    rcases hfirst g hgfiles hany with hgf | hlt
    · rw [hgf] at hg
      have hmem1 : f.name ∈ l₁.map SourceFile.name := List.mem_map_of_mem _ hg
      rw [List.map_append, List.map_cons] at hnodup2
      rcases List.nodup_append.mp hnodup2 with ⟨-, -, hdisj⟩
      exact hdisj hmem1 (List.mem_cons_self _ _)
    · rcases List.pairwise_append.mp hsorted with ⟨-, -, hcross⟩
      have hle : fileLe g f := hcross g hg f (List.mem_cons_self f l₂)
      rw [fileLe] at hle
      rw [hlt] at hle
      exact Bool.noConfusion hle
  have hmid : (batchOf f s).find? (fun x => decide (x.id = t)) = some r := by
    rw [batchOf, batchOf_find?]
    exact hr
  rw [hl1, hmid]
  rfl

/-- C10, witness: the identifier `1` appears in both daily files; the row
kept is the one from the lexicographically earlier file. -/
theorem c10_theorem_witness :
    ([(⟨"2019-07-01.feather".toList, some [⟨"X".toList, 1, 100, 0, 0, 0⟩]⟩ : SourceFile),
      ⟨"2019-07-02.feather".toList, some [⟨"X".toList, 1, 200, 0, 0, 0⟩]⟩].map
        SourceFile.name).Nodup ∧
    (dedupById []
        (((aggregate (sortFiles
          [⟨"2019-07-01.feather".toList, some [⟨"X".toList, 1, 100, 0, 0, 0⟩]⟩,
           ⟨"2019-07-02.feather".toList, some [⟨"X".toList, 1, 200, 0, 0, 0⟩]⟩])).instruments_data
          "X".toList).flatten)).filter (fun x => decide (x.id = 1)) =
      [⟨"X".toList, 1, 100, 0, 0, 0⟩] :=
  ⟨by decide,
   c10_theorem
     [⟨"2019-07-01.feather".toList, some [⟨"X".toList, 1, 100, 0, 0, 0⟩]⟩,
      ⟨"2019-07-02.feather".toList, some [⟨"X".toList, 1, 200, 0, 0, 0⟩]⟩]
     "X".toList 1
     (⟨"2019-07-01.feather".toList, some [⟨"X".toList, 1, 100, 0, 0, 0⟩]⟩ : SourceFile)
     (⟨"X".toList, 1, 100, 0, 0, 0⟩ : Trade)
     (by decide) (by decide) (by decide) (by decide)⟩
